import Mathlib

/-!
# Verification of `src/actions/sources/newSources.js`

Shallow embedding of the new-source coordinator of the debugger:
the Redux thunks `newSource`, `newSources`, `loadSourceMaps`,
`loadSourceMap`, `checkSelectedSource` and `checkPendingBreakpoints`,
together with the registry reducers they drive.

Modelling conventions:

* JavaScript objects become Lean structures; nullable / possibly absent
  fields become `Option`.  JS truthiness of a nullable string
  (`!source.sourceMapURL` is true for both `undefined` and `""`) is the
  `truthy` predicate below.
* The Redux store is an explicit `State` value threaded through every
  denotation.  The reducers for the two registry effects
  (`ADD_SOURCES`, `UPDATE_SOURCE`) live outside the excerpt, so they are
  modelled from the spec (see their doc comments).
* Every external capability (source-map resolver, url helpers) is a
  field of `Ctx`; calls to external capabilities are recorded as events.
* Each thunk denotation returns an `Out`: the final state, three event
  traces and the value of the thunk's promise.  The traces split the
  events of the execution by their relation to the promise returned by
  the thunk:
    - `sync`: events emitted in the synchronous prefix of the thunk,
      before its first suspension (`await`);
    - `awaited`: events emitted after the first suspension but
      sequenced before the thunk's promise resolves;
    - `unawaited`: events of fire-and-forget sub-tasks (dispatches of
      inner thunks whose promise is dropped) that are *not* sequenced
      before the thunk's promise resolves.
  A fire-and-forget `dispatch(thunk)` contributes the inner thunk's
  `sync` trace to the current segment (the inner async function body
  runs synchronously up to its first `await`) and the rest of its
  events to `unawaited`.  An awaited `dispatch(thunk)` contributes the
  inner `sync` trace to the current segment and the inner
  `awaited ++ unawaited`-free completion to `awaited`.  Concurrently
  awaited branches (`Promise.all`) are serialized depth-first in list
  order; the claims proved below do not depend on the relative order of
  events of distinct branches.
* A rejected promise is `Except.error ()`; the single `try/catch`
  of the file becomes a `match` on the resolver's result.
-/

set_option maxHeartbeats 1000000

namespace DebuggerHtml

/-- A source record, after `src/types.js`: `id`, nullable `url`, the
three boolean flags, the `loadedState` enum (kept as a string) and the
optional `sourceMapURL`. -/
structure Source where
  id : String
  url : Option String
  isPrettyPrinted : Bool
  isWasm : Bool
  isBlackBoxed : Bool
  loadedState : String
  sourceMapURL : Option String
deriving DecidableEq, Repr

/-- A pending selection intent: a nullable `url` plus the remaining
location fields (kept abstract as line/column). -/
structure PendingLocation where
  url : Option String
  line : Nat
  column : Option Nat
deriving DecidableEq, Repr

/-- A pending breakpoint record; its payload is opaque to this layer,
it is only handed to the external breakpoint synchronizer. -/
structure PendingBreakpoint where
  key : Nat
deriving DecidableEq, Repr

/-- JS truthiness of a nullable string field: `undefined`/`null` and
`""` are falsy, every other string is truthy. -/
def truthy : Option String → Bool
  | none => false
  | some s => !(s == "")

/-- The external capabilities used by the coordinator:
`isGeneratedId` / `generatedToOriginalId` from `devtools-source-map`,
the source-map resolver `sourceMaps.getOriginalURLs` (which may throw:
`Except.error`, resolve to null: `.ok none`, or resolve to an array of
urls: `.ok (some urls)`), and `getRawSourceURL` / `isPrettyURL` from
`utils/source`. -/
structure Ctx where
  isGeneratedId : String → Bool
  generatedToOriginalId : String → String → String
  getOriginalURLs : Source → Except Unit (Option (List String))
  getRawSourceURL : String → String
  isPrettyURL : String → Bool

/-- The slice of the Redux store this excerpt touches: the source
registry plus the two pending-intent selectors' backing data.
`pendingBreakpointsFor` is the Pending-Intent Store keyed by (nullable)
source url, in stored iteration order. -/
structure State where
  sources : List Source
  pendingSelectedLocation : Option PendingLocation
  pendingBreakpointsFor : Option String → List PendingBreakpoint

/-- Modelled from the spec: the Source Registry Accessor `getSource`
(`src/selectors`, not part of the excerpt) — "fetch current source by
identity". Later `ADD_SOURCES` batches are prepended reversed, so the
first hit is the most recently stored record for an id. -/
def getSource (st : State) (sourceId : String) : Option Source :=
  st.sources.find? (fun s => s.id == sourceId)

/-- Modelled from the spec: selector `getPendingSelectedLocation`
(`src/selectors`, not part of the excerpt). -/
def getPendingSelectedLocation (st : State) : Option PendingLocation :=
  st.pendingSelectedLocation

/-- Modelled from the spec: selector `getPendingBreakpointsForSource`
(`src/selectors`, not part of the excerpt) — all pending breakpoints
keyed by the source's url, in stored order. -/
def getPendingBreakpointsForSource (st : State) (url : Option String) :
    List PendingBreakpoint :=
  st.pendingBreakpointsFor url

/-- Modelled from the spec: the reducer of the registry effect
"sources added" (`ADD_SOURCES`), which stores every record of the
batch in the registry (map-set semantics: for a duplicated id the last
record of the batch wins, hence the reversed prepend). -/
def addSourcesReducer (st : State) (ss : List Source) : State :=
  { st with sources := ss.reverse ++ st.sources }

/-- Modelled from the spec: the reducer of the registry effect
"source updated" (`UPDATE_SOURCE`), which replaces the record stored
under the carried record's id. -/
def updateSourceReducer (st : State) (s : Source) : State :=
  { st with sources := st.sources.map (fun t => if t.id == s.id then s else t) }

/-- The observable effects of the coordinator: the two registry
effects, the `console.error` log, and the calls into the five external
capabilities. -/
inductive Ev where
  | addSources (sources : List Source)
  | updateSource (source : Source)
  | consoleError
  | togglePrettyPrint (sourceId : String)
  | selectLocation (loc : PendingLocation) (sourceId : String)
  | loadSourceText (source : Source)
  | syncBreakpoint (sourceId : String) (bp : PendingBreakpoint)
  | getOriginalURLsCall (sourceId : String)
deriving DecidableEq, Repr

abbrev Trace := List Ev

/-- The result of running one thunk: final state, the three event
traces (see the module doc comment) and the settled value of the
thunk's promise (`Except.error ()` for a rejection). -/
structure Out (α : Type) where
  state : State
  sync : Trace
  awaited : Trace
  unawaited : Trace
  val : Except Unit α

/-- All events of an execution, in canonical order: the synchronous
prefix, then the awaited completion, then the unawaited leftovers. -/
def Out.allEv {α : Type} (o : Out α) : Trace :=
  o.sync ++ o.awaited ++ o.unawaited

def isSyncBreakpointEv : Ev → Bool
  | .syncBreakpoint _ _ => true
  | _ => false

def isUpdateSourceEv : Ev → Bool
  | .updateSource _ => true
  | _ => false

def isAddSourcesEv : Ev → Bool
  | .addSources _ => true
  | _ => false

/-- `createOriginalSource` (lines 30–43): the record built for one
original url discovered through a source map.  Note that it carries no
`sourceMapURL`. -/
def createOriginalSource (originalUrl : String) (generatedSource : Source)
    (ctx : Ctx) : Source :=
  { url := some originalUrl
    id := ctx.generatedToOriginalId generatedSource.id originalUrl
    isPrettyPrinted := false
    isWasm := false
    isBlackBoxed := false
    loadedState := "unloaded"
    sourceMapURL := none }

/-- `checkSelectedSource` (lines 94–117).  Re-fetches the source, reads
the pending selection intent, and either does nothing, triggers
pretty-printing, or issues a selection request.  `getSource(...).toJS()`
on an unregistered id throws, i.e. rejects the thunk's promise.  All
its events are emitted before its first `await` (the awaited dispatches
are issued synchronously), so they sit in the `sync` trace. -/
def checkSelectedSource (ctx : Ctx) (st : State) (sourceId : String) :
    Out Unit :=
  match getSource st sourceId with
  | none => ⟨st, [], [], [], .error ()⟩
  | some source =>
    match getPendingSelectedLocation st with
    | none => ⟨st, [], [], [], .ok ()⟩
    | some pendingLocation =>
      if !truthy pendingLocation.url || !truthy source.url then
        ⟨st, [], [], [], .ok ()⟩
      else
        match pendingLocation.url, source.url with
        | some pendingUrl, some sourceUrl =>
          if ctx.getRawSourceURL pendingUrl == sourceUrl then
            if ctx.isPrettyURL pendingUrl then
              ⟨st, [.togglePrettyPrint source.id], [], [], .ok ()⟩
            else
              ⟨st, [.selectLocation pendingLocation source.id], [], [], .ok ()⟩
          else
            ⟨st, [], [], [], .ok ()⟩
        | _, _ => ⟨st, [], [], [], .ok ()⟩

/-- `checkPendingBreakpoints` (lines 119–141).  Re-fetches the source,
looks up the pending breakpoints for its url; if none, does nothing;
otherwise issues the text load synchronously (the `dispatch` before the
first `await`), then synchronizes each pending breakpoint sequentially,
each awaited — those calls happen after the first suspension, hence in
the `awaited` trace, in stored order. -/
def checkPendingBreakpoints (ctx : Ctx) (st : State) (sourceId : String) :
    Out Unit :=
  match getSource st sourceId with
  | none => ⟨st, [], [], [], .error ()⟩
  | some source =>
    let pendingBreakpoints := getPendingBreakpointsForSource st source.url
    if pendingBreakpoints.length == 0 then
      ⟨st, [], [], [], .ok ()⟩
    else
      ⟨st, [.loadSourceText source],
        pendingBreakpoints.map (fun bp => .syncBreakpoint sourceId bp),
        [], .ok ()⟩

/-- The filter of `newSources` (line 156–158):
`sources.filter(source => source && !getSource(getState(), source.id))`.
All `getState()` reads happen before any dispatch of the call, so every
candidate is checked against the same snapshot `st`. -/
def filteredSources (st : State) (sources : List (Option Source)) :
    List Source :=
  sources.filterMap (fun cand =>
    match cand with
    | none => none
    | some s => if (getSource st s.id).isSome then none else some s)

/-- lodash `flatten`: one level of flattening; a non-array entry
(here: the `undefined` resolved by `loadSourceMap`) passes through
unchanged. -/
def flattenJS (l : List (Option (List (Option Source)))) :
    List (Option Source) :=
  l.flatMap (fun v =>
    match v with
    | none => [none]
    | some xs => xs)

/-- `loadSourceMap` (lines 59–90), parametrized by the recursive
dispatch of `newSources` (the fire-and-forget `dispatch` of line 88).
Re-fetches the source (`.toJS()` on an unregistered id throws), short
circuits when the id is not generated or no source-map url is declared,
otherwise calls the resolver (synchronously issued, then awaited).  A
thrown resolver is caught and logged and falls into the same
cleared-`sourceMapURL` update as a null result; a resolved array maps
to original sources handed to the unawaited recursive dispatch.  The
thunk resolves with no value (`undefined`) in every branch. -/
def loadSourceMap (ctx : Ctx)
    (recurse : State → List (Option Source) → Out Unit)
    (st : State) (sourceId : String) : Out (Option (List (Option Source))) :=
  match getSource st sourceId with
  | none => ⟨st, [], [], [], .error ()⟩
  | some source =>
    if !ctx.isGeneratedId source.id || !truthy source.sourceMapURL then
      ⟨st, [], [], [], .ok none⟩
    else
      match ctx.getOriginalURLs source with
      | .error _ =>
        let updated := { source with sourceMapURL := some "" }
        ⟨updateSourceReducer st updated,
          [.getOriginalURLsCall source.id],
          [.consoleError, .updateSource updated],
          [], .ok none⟩
      | .ok none =>
        let updated := { source with sourceMapURL := some "" }
        ⟨updateSourceReducer st updated,
          [.getOriginalURLsCall source.id],
          [.updateSource updated],
          [], .ok none⟩
      | .ok (some urls) =>
        let originalSources :=
          urls.map (fun url => createOriginalSource url source ctx)
        let r := recurse st (originalSources.map some)
        ⟨r.state,
          [.getOriginalURLsCall source.id],
          r.sync,
          r.awaited ++ r.unawaited,
          .ok none⟩

/-- Intermediate result of the `Promise.all` of `loadSourceMaps`:
threaded state, concatenated traces and the list of per-source
settled values. -/
structure AllOut where
  state : State
  sync : Trace
  awaited : Trace
  unawaited : Trace
  vals : List (Except Unit (Option (List (Option Source))))

/-- The `sources.map(source => dispatch(loadSourceMap(source.id)))` of
line 48, serialized depth-first in list order: all synchronous prefixes
are issued in order, the awaited completions are concatenated in the
same canonical order. -/
def loadSourceMapAll (ctx : Ctx)
    (recurse : State → List (Option Source) → Out Unit) :
    State → List Source → AllOut
  | st, [] => ⟨st, [], [], [], []⟩
  | st, source :: rest =>
    let o := loadSourceMap ctx recurse st source.id
    let r := loadSourceMapAll ctx recurse o.state rest
    ⟨r.state, o.sync ++ r.sync, o.awaited ++ r.awaited,
      o.unawaited ++ r.unawaited, o.val :: r.vals⟩

/-- `loadSourceMaps` (lines 45–53): awaits the `Promise.all` over the
batch, then feeds the flattened per-source results into the awaited
recursive `newSources` dispatch of line 51.  If any branch rejected,
the `Promise.all` rejects and the recursive dispatch is skipped (the
remaining branches still ran). -/
def loadSourceMaps (ctx : Ctx)
    (recurse : State → List (Option Source) → Out Unit)
    (st : State) (sources : List Source) : Out Unit :=
  let a := loadSourceMapAll ctx recurse st sources
  if a.vals.any (fun v => match v with | .error _ => true | .ok _ => false) then
    ⟨a.state, a.sync, a.awaited, a.unawaited, .error ()⟩
  else
    let originalSources :=
      a.vals.filterMap (fun v => match v with | .ok x => some x | .error _ => none)
    let r := recurse a.state (flattenJS originalSources)
    ⟨r.state, a.sync, a.awaited ++ r.sync ++ r.awaited,
      a.unawaited ++ r.unawaited, r.val⟩

/-- The `for`-loop of lines 169–172: for each freshly added source,
fire-and-forget dispatches of `checkSelectedSource` and
`checkPendingBreakpoints`.  Their synchronous prefixes run in loop
order; their completions are unawaited; their (rejected-promise)
values are dropped. -/
def intentChecks (ctx : Ctx) : State → List Source → State × Trace × Trace
  | st, [] => (st, [], [])
  | st, source :: rest =>
    let c1 := checkSelectedSource ctx st source.id
    let c2 := checkPendingBreakpoints ctx c1.state source.id
    let r := intentChecks ctx c2.state rest
    (r.1,
      c1.sync ++ c2.sync ++ r.2.1,
      c1.awaited ++ c1.unawaited ++ c2.awaited ++ c2.unawaited ++ r.2.2)

/-- The body of `newSources` (lines 154–176), parametrized by the
recursive dispatch used inside `loadSourceMaps` / `loadSourceMap`:
filter against the current snapshot, short-circuit on an empty result,
otherwise dispatch the batched `ADD_SOURCES`, run the fire-and-forget
intent checks per source, and await `loadSourceMaps` for the batch
(whose synchronous prefix — including all resolver call issuances — runs
synchronously at the dispatch). -/
def newSourcesBody (ctx : Ctx)
    (recurse : State → List (Option Source) → Out Unit)
    (st : State) (sources : List (Option Source)) : Out Unit :=
  let filtered := filteredSources st sources
  if filtered.length == 0 then
    ⟨st, [], [], [], .ok ()⟩
  else
    let st1 := addSourcesReducer st filtered
    let c := intentChecks ctx st1 filtered
    let r := loadSourceMaps ctx recurse c.1 filtered
    ⟨r.state,
      .addSources filtered :: (c.2.1 ++ r.sync),
      r.awaited,
      c.2.2 ++ r.unawaited,
      r.val⟩

/-- `newSources` (lines 154–176).  The fuel bounds the recursion depth
through `loadSourceMaps` / `loadSourceMap`; on this code two units of
fuel are always enough (created original sources carry no
`sourceMapURL`, so their own map resolution short-circuits). -/
def newSources (ctx : Ctx) : Nat → State → List (Option Source) → Out Unit
  | 0 => fun st _ => ⟨st, [], [], [], .ok ()⟩
  | fuel + 1 => newSourcesBody ctx (newSources ctx fuel)

/-- `newSource` (lines 148–152): awaits the dispatch of the singleton
batch and adds nothing else. -/
def newSource (ctx : Ctx) (fuel : Nat) (st : State) (source : Source) :
    Out Unit :=
  let r := newSources ctx fuel st [some source]
  ⟨r.state, r.sync, r.awaited, r.unawaited, r.val⟩

/-! ## Basic lemmas about the registry and the intent checks -/

lemma getSource_isSome_iff (st : State) (i : String) :
    (getSource st i).isSome = true ↔ ∃ s ∈ st.sources, s.id = i := by
  simp [getSource, List.find?_isSome]

lemma present_addSources (st : State) (ss : List Source) (i : String)
    (h : (getSource st i).isSome = true) :
    (getSource (addSourcesReducer st ss) i).isSome = true := by
  rw [getSource_isSome_iff] at h ⊢
  obtain ⟨s, hs, hid⟩ := h
  exact ⟨s, by simp [addSourcesReducer, hs], hid⟩

lemma present_updateSource (st : State) (u : Source) (i : String)
    (h : (getSource st i).isSome = true) :
    (getSource (updateSourceReducer st u) i).isSome = true := by
  rw [getSource_isSome_iff] at h ⊢
  obtain ⟨s, hs, hid⟩ := h
  by_cases hc : s.id = u.id
  · refine ⟨u, ?_, by rw [← hc, hid]⟩
    simp only [updateSourceReducer, List.mem_map]
    exact ⟨s, hs, by simp [hc]⟩
  · refine ⟨s, ?_, hid⟩
    simp only [updateSourceReducer, List.mem_map]
    exact ⟨s, hs, by simp [hc]⟩

lemma getSource_addSources_payload (st : State) (ss : List Source) (i : String)
    (h : ∃ x ∈ ss, x.id = i) :
    ∃ r ∈ ss, getSource (addSourcesReducer st ss) i = some r := by
  simp only [getSource, addSourcesReducer]
  cases hfind : (ss.reverse).find? (fun s => s.id == i) with
  | none =>
    exfalso
    obtain ⟨x, hx, hid⟩ := h
    have := List.find?_eq_none.mp hfind x (by simp [hx])
    simp [hid] at this
  | some r =>
    refine ⟨r, List.mem_reverse.mp (List.mem_of_find?_eq_some hfind), ?_⟩
    rw [List.find?_append, hfind]
    rfl

lemma filteredSources_mem (st : State) (sources : List (Option Source))
    (s : Source) (h : s ∈ filteredSources st sources) :
    some s ∈ sources ∧ getSource st s.id = none := by
  simp only [filteredSources, List.mem_filterMap] at h
  obtain ⟨cand, hc, hme⟩ := h
  cases cand with
  | none => simp at hme
  | some t =>
    simp only at hme
    split at hme
    · simp at hme
    · next hns =>
      cases hme
      refine ⟨hc, ?_⟩
      cases hg : getSource st s.id with
      | none => rfl
      | some r => rw [hg] at hns; simp at hns

lemma filteredSources_allNone (st : State) (sources : List (Option Source))
    (h : ∀ x ∈ sources, x = none) : filteredSources st sources = [] := by
  induction sources with
  | nil => rfl
  | cons c rest ih =>
    have hc := h c (by simp)
    subst hc
    simpa [filteredSources] using ih (fun x hx => h x (by simp [hx]))

lemma filteredSources_fresh (st : State) (ss : List Source)
    (h : ∀ s ∈ ss, getSource st s.id = none) :
    filteredSources st (ss.map some) = ss := by
  induction ss with
  | nil => rfl
  | cons s rest ih =>
    have hs := h s (by simp)
    simp only [filteredSources, List.map_cons, List.filterMap_cons]
    rw [hs]
    simpa [filteredSources] using ih (fun x hx => h x (by simp [hx]))

lemma flattenJS_allNone (l : List (Option (List (Option Source))))
    (h : ∀ v ∈ l, v = none) : ∀ x ∈ flattenJS l, x = none := by
  intro x hx
  rcases List.mem_flatMap.mp hx with ⟨v, hv, hin⟩
  have := h v hv
  subst this
  simpa using hin

lemma checkSelectedSource_shape (ctx : Ctx) (st : State) (sourceId : String) :
    (checkSelectedSource ctx st sourceId).state = st ∧
    (checkSelectedSource ctx st sourceId).awaited = [] ∧
    (checkSelectedSource ctx st sourceId).unawaited = [] ∧
    ∀ e ∈ (checkSelectedSource ctx st sourceId).sync,
      isAddSourcesEv e = false ∧ isUpdateSourceEv e = false ∧
      isSyncBreakpointEv e = false := by
  unfold checkSelectedSource
  rcases getSource st sourceId with _ | s
  · exact ⟨rfl, rfl, rfl, by intro e he; simp at he⟩
  rcases getPendingSelectedLocation st with _ | pl
  · exact ⟨rfl, rfl, rfl, by intro e he; simp at he⟩
  simp only
  split
  · exact ⟨rfl, rfl, rfl, by intro e he; simp at he⟩
  rcases hpu : pl.url with _ | pu
  · exact ⟨rfl, rfl, rfl, by intro e he; simp at he⟩
  rcases hsu : s.url with _ | su
  · exact ⟨rfl, rfl, rfl, by intro e he; simp at he⟩
  simp only
  split
  · split
    · refine ⟨rfl, rfl, rfl, ?_⟩
      intro e he
      simp only [List.mem_singleton] at he
      subst he
      exact ⟨rfl, rfl, rfl⟩
    · refine ⟨rfl, rfl, rfl, ?_⟩
      intro e he
      simp only [List.mem_singleton] at he
      subst he
      exact ⟨rfl, rfl, rfl⟩
  · exact ⟨rfl, rfl, rfl, by intro e he; simp at he⟩

lemma checkPendingBreakpoints_shape (ctx : Ctx) (st : State) (sourceId : String) :
    (checkPendingBreakpoints ctx st sourceId).state = st ∧
    (checkPendingBreakpoints ctx st sourceId).unawaited = [] ∧
    (∀ e ∈ (checkPendingBreakpoints ctx st sourceId).awaited,
      isSyncBreakpointEv e = true) ∧
    ∀ e ∈ (checkPendingBreakpoints ctx st sourceId).sync ++
          (checkPendingBreakpoints ctx st sourceId).awaited,
      isAddSourcesEv e = false ∧ isUpdateSourceEv e = false := by
  unfold checkPendingBreakpoints
  rcases getSource st sourceId with _ | s
  · exact ⟨rfl, rfl, by intro e he; simp at he, by intro e he; simp at he⟩
  simp only
  split
  · exact ⟨rfl, rfl, by intro e he; simp at he, by intro e he; simp at he⟩
  · refine ⟨rfl, rfl, ?_, ?_⟩
    · intro e he
      simp only [List.mem_map] at he
      obtain ⟨bp, _, hbe⟩ := he
      subst hbe
      rfl
    · intro e he
      rcases List.mem_append.mp he with h1 | h2
      · simp only [List.mem_singleton] at h1
        subst h1
        exact ⟨rfl, rfl⟩
      · simp only [List.mem_map] at h2
        obtain ⟨bp, _, hbe⟩ := h2
        subst hbe
        exact ⟨rfl, rfl⟩

lemma intentChecks_shape (ctx : Ctx) (st : State) (ss : List Source) :
    (intentChecks ctx st ss).1 = st ∧
    (∀ e ∈ (intentChecks ctx st ss).2.2, isSyncBreakpointEv e = true) ∧
    ∀ e ∈ (intentChecks ctx st ss).2.1 ++ (intentChecks ctx st ss).2.2,
      isAddSourcesEv e = false ∧ isUpdateSourceEv e = false := by
  induction ss generalizing st with
  | nil => exact ⟨rfl, by intro e he; simp [intentChecks] at he,
      by intro e he; simp [intentChecks] at he⟩
  | cons s rest ih =>
    obtain ⟨h1st, h1aw, h1un, h1sync⟩ := checkSelectedSource_shape ctx st s.id
    obtain ⟨h2st, h2un, h2aw, h2no⟩ :=
      checkPendingBreakpoints_shape ctx ((checkSelectedSource ctx st s.id).state) s.id
    rw [h1st] at h2st h2un h2aw h2no
    obtain ⟨ihst, ihun, ihno⟩ :=
      ih ((checkPendingBreakpoints ctx st s.id).state)
    rw [h2st] at ihst ihun ihno
    simp only [intentChecks, h1st, h2st]
    refine ⟨ihst, ?_, ?_⟩
    · intro e he
      rw [h1aw, h1un, h2un] at he
      simp only [List.nil_append, List.append_nil, List.mem_append] at he
      rcases he with h | h
      · exact h2aw e h
      · exact ihun e h
    · intro e he
      rw [h1aw, h1un, h2un] at he
      simp only [List.nil_append, List.append_nil, List.mem_append] at he
      rcases he with ((h | h) | h) | h | h
      · exact ⟨(h1sync e h).1, (h1sync e h).2.1⟩
      · exact h2no e (List.mem_append.mpr (Or.inl h))
      · exact ihno e (List.mem_append.mpr (Or.inl h))
      · exact h2no e (List.mem_append.mpr (Or.inr h))
      · exact ihno e (List.mem_append.mpr (Or.inr h))

/-! ## Unfolding and branch lemmas for the recursive denotations -/

lemma newSources_succ (ctx : Ctx) (fuel : Nat) :
    newSources ctx (fuel + 1) = newSourcesBody ctx (newSources ctx fuel) := rfl

lemma newSources_empty (ctx : Ctx) (fuel : Nat) (st : State)
    (sources : List (Option Source)) (h : filteredSources st sources = []) :
    newSources ctx fuel st sources = ⟨st, [], [], [], .ok ()⟩ := by
  cases fuel with
  | zero => rfl
  | succ f =>
    rw [newSources_succ]
    unfold newSourcesBody
    simp [h]

lemma newSources_allNone (ctx : Ctx) (fuel : Nat) (st : State)
    (sources : List (Option Source)) (h : ∀ x ∈ sources, x = none) :
    newSources ctx fuel st sources = ⟨st, [], [], [], .ok ()⟩ :=
  newSources_empty ctx fuel st sources (filteredSources_allNone st sources h)

lemma loadSourceMap_skip (ctx : Ctx)
    (recurse : State → List (Option Source) → Out Unit)
    (st : State) (sourceId : String) (s : Source)
    (hs : getSource st sourceId = some s)
    (h : ctx.isGeneratedId s.id = false ∨ truthy s.sourceMapURL = false) :
    loadSourceMap ctx recurse st sourceId = ⟨st, [], [], [], .ok none⟩ := by
  unfold loadSourceMap
  rw [hs]
  simp only
  rw [if_pos]
  rcases h with h | h <;> simp [h]

lemma loadSourceMap_val (ctx : Ctx)
    (recurse : State → List (Option Source) → Out Unit)
    (st : State) (sourceId : String) :
    (loadSourceMap ctx recurse st sourceId).val = .ok none ∨
    (loadSourceMap ctx recurse st sourceId).val = .error () := by
  unfold loadSourceMap
  cases getSource st sourceId with
  | none => exact Or.inr rfl
  | some s =>
    simp only
    split
    · exact Or.inl rfl
    · cases ctx.getOriginalURLs s with
      | error e => exact Or.inl rfl
      | ok u =>
        cases u with
        | none => exact Or.inl rfl
        | some urls => exact Or.inl rfl

lemma loadSourceMap_ok (ctx : Ctx)
    (recurse : State → List (Option Source) → Out Unit)
    (st : State) (sourceId : String)
    (h : (getSource st sourceId).isSome = true) :
    (loadSourceMap ctx recurse st sourceId).val = .ok none := by
  unfold loadSourceMap
  cases hg : getSource st sourceId with
  | none => rw [hg] at h; simp at h
  | some s =>
    simp only
    split
    · rfl
    · cases ctx.getOriginalURLs s with
      | error e => rfl
      | ok u => cases u with
        | none => rfl
        | some urls => rfl

lemma loadSourceMapAll_noMap (ctx : Ctx)
    (recurse : State → List (Option Source) → Out Unit)
    (st : State) (ss : List Source)
    (h : ∀ s ∈ ss, ∃ r, getSource st s.id = some r ∧ r.sourceMapURL = none) :
    loadSourceMapAll ctx recurse st ss =
      ⟨st, [], [], [], List.replicate ss.length (.ok none)⟩ := by
  induction ss with
  | nil => rfl
  | cons s rest ih =>
    obtain ⟨r, hr, hmr⟩ := h s (by simp)
    have hskip := loadSourceMap_skip ctx recurse st s.id r hr
      (Or.inr (by rw [hmr]; rfl))
    simp only [loadSourceMapAll, hskip]
    rw [ih (fun x hx => h x (by simp [hx]))]
    simp [List.replicate]

lemma extract_vals_replicate (n : Nat) :
    (List.replicate n ((.ok none) : Except Unit (Option (List (Option Source))))).filterMap
      (fun v => match v with | .ok x => some x | .error _ => none) =
    List.replicate n none := by
  induction n with
  | zero => rfl
  | succ k ih => simp [List.replicate_succ, ih]

lemma any_error_replicate (n : Nat) :
    (List.replicate n ((.ok none) : Except Unit (Option (List (Option Source))))).any
      (fun v => match v with | .error _ => true | .ok _ => false) = false := by
  induction n with
  | zero => rfl
  | succ k ih => simp only [List.replicate_succ, List.any_cons, ih, Bool.or_false]

lemma loadSourceMaps_noMap (ctx : Ctx)
    (recurse : State → List (Option Source) → Out Unit)
    (st : State) (ss : List Source)
    (hrec : ∀ st2 srcs, (∀ x ∈ srcs, x = none) →
      recurse st2 srcs = ⟨st2, [], [], [], .ok ()⟩)
    (h : ∀ s ∈ ss, ∃ r, getSource st s.id = some r ∧ r.sourceMapURL = none) :
    loadSourceMaps ctx recurse st ss = ⟨st, [], [], [], .ok ()⟩ := by
  have hall := loadSourceMapAll_noMap ctx recurse st ss h
  have hfeed := hrec st (flattenJS (List.replicate ss.length none))
    (flattenJS_allNone _ (fun v hv => List.eq_of_mem_replicate hv))
  simp only [loadSourceMaps, hall, extract_vals_replicate, any_error_replicate,
    hfeed]
  simp

/-! ## Presence of ids in the registry is monotone along every thunk -/

def Present (st : State) (i : String) : Prop := (getSource st i).isSome = true

lemma loadSourceMap_mono (ctx : Ctx)
    (recurse : State → List (Option Source) → Out Unit)
    (st : State) (sourceId : String) (i : String)
    (hrec : ∀ st2 srcs, Present st2 i → Present ((recurse st2 srcs).state) i)
    (h : Present st i) :
    Present ((loadSourceMap ctx recurse st sourceId).state) i := by
  unfold loadSourceMap
  cases getSource st sourceId with
  | none => exact h
  | some s =>
    simp only
    split
    · exact h
    · cases ctx.getOriginalURLs s with
      | error e => exact present_updateSource st _ i h
      | ok u => cases u with
        | none => exact present_updateSource st _ i h
        | some urls => exact hrec st _ h

lemma loadSourceMapAll_mono (ctx : Ctx)
    (recurse : State → List (Option Source) → Out Unit)
    (st : State) (ss : List Source) (i : String)
    (hrec : ∀ st2 srcs, Present st2 i → Present ((recurse st2 srcs).state) i)
    (h : Present st i) :
    Present ((loadSourceMapAll ctx recurse st ss).state) i := by
  induction ss generalizing st with
  | nil => exact h
  | cons s rest ih =>
    exact ih _ (loadSourceMap_mono ctx recurse st s.id i hrec h)

lemma loadSourceMaps_mono (ctx : Ctx)
    (recurse : State → List (Option Source) → Out Unit)
    (st : State) (ss : List Source) (i : String)
    (hrec : ∀ st2 srcs, Present st2 i → Present ((recurse st2 srcs).state) i)
    (h : Present st i) :
    Present ((loadSourceMaps ctx recurse st ss).state) i := by
  have ha := loadSourceMapAll_mono ctx recurse st ss i hrec h
  simp only [loadSourceMaps]
  split
  · exact ha
  · exact hrec _ _ ha

lemma newSources_mono (ctx : Ctx) :
    ∀ fuel st sources i, Present st i →
      Present ((newSources ctx fuel st sources).state) i := by
  intro fuel
  induction fuel with
  | zero => intro st sources i h; exact h
  | succ f ih =>
    intro st sources i h
    rw [newSources_succ]
    simp only [newSourcesBody]
    split
    · exact h
    · have h1 : Present (addSourcesReducer st (filteredSources st sources)) i :=
        present_addSources st _ i h
      have hc := (intentChecks_shape ctx
        (addSourcesReducer st (filteredSources st sources)) (filteredSources st sources)).1
      rw [hc]
      exact loadSourceMaps_mono ctx (newSources ctx f) _ _ i
        (fun st2 srcs => ih st2 srcs i) h1

lemma loadSourceMapAll_vals_ok (ctx : Ctx)
    (recurse : State → List (Option Source) → Out Unit)
    (st : State) (ss : List Source)
    (hrec : ∀ st2 srcs i, Present st2 i → Present ((recurse st2 srcs).state) i)
    (h : ∀ s ∈ ss, Present st s.id) :
    ∀ v ∈ (loadSourceMapAll ctx recurse st ss).vals, v = .ok none := by
  induction ss generalizing st with
  | nil => intro v hv; simp [loadSourceMapAll] at hv
  | cons s rest ih =>
    intro v hv
    simp only [loadSourceMapAll, List.mem_cons] at hv
    rcases hv with hv | hv
    · rw [hv]
      exact loadSourceMap_ok ctx recurse st s.id (h s (by simp))
    · refine ih _ ?_ v hv
      intro x hx
      exact loadSourceMap_mono ctx recurse st s.id x.id (fun st2 srcs => hrec st2 srcs x.id)
        (h x (by simp [hx]))

lemma loadSourceMapAll_vals_weak (ctx : Ctx)
    (recurse : State → List (Option Source) → Out Unit)
    (st : State) (ss : List Source) :
    ∀ v ∈ (loadSourceMapAll ctx recurse st ss).vals,
      v = .ok none ∨ v = .error () := by
  induction ss generalizing st with
  | nil => intro v hv; simp [loadSourceMapAll] at hv
  | cons s rest ih =>
    intro v hv
    simp only [loadSourceMapAll, List.mem_cons] at hv
    rcases hv with hv | hv
    · rw [hv]; exact loadSourceMap_val ctx recurse st s.id
    · exact ih _ v hv

lemma loadSourceMaps_val (ctx : Ctx)
    (recurse : State → List (Option Source) → Out Unit)
    (st : State) (ss : List Source)
    (hrecmono : ∀ st2 srcs i, Present st2 i → Present ((recurse st2 srcs).state) i)
    (hrecval : ∀ st2 srcs, (recurse st2 srcs).val = .ok ())
    (h : ∀ s ∈ ss, Present st s.id) :
    (loadSourceMaps ctx recurse st ss).val = .ok () := by
  have hvals := loadSourceMapAll_vals_ok ctx recurse st ss hrecmono h
  have hany : ((loadSourceMapAll ctx recurse st ss).vals.any
      (fun v => match v with | .error _ => true | .ok _ => false)) = false := by
    rw [List.any_eq_false]
    intro v hv
    rw [hvals v hv]
    simp
  simp only [loadSourceMaps, hany]
  simp only [Bool.false_eq_true, if_false]
  exact hrecval _ _

lemma newSources_total (ctx : Ctx) :
    ∀ fuel st sources, (newSources ctx fuel st sources).val = .ok () := by
  intro fuel
  induction fuel with
  | zero => intro st sources; rfl
  | succ f ih =>
    intro st sources
    rw [newSources_succ]
    simp only [newSourcesBody]
    split
    · rfl
    · next hne =>
      have hc := (intentChecks_shape ctx
        (addSourcesReducer st (filteredSources st sources)) (filteredSources st sources)).1
      rw [hc]
      refine loadSourceMaps_val ctx (newSources ctx f) _ _
        (fun st2 srcs i => newSources_mono ctx f st2 srcs i)
        (fun st2 srcs => ih st2 srcs) ?_
      intro s hs
      obtain ⟨r, hr, hget⟩ := getSource_addSources_payload st
        (filteredSources st sources) s.id ⟨s, hs, rfl⟩
      unfold Present
      rw [hget]
      rfl

/-! ## Batches without source maps short-circuit their map resolution -/

lemma newSources_noMap (ctx : Ctx) (fuel : Nat) (st : State)
    (sources : List (Option Source))
    (h : ∀ s : Source, some s ∈ sources → s.sourceMapURL = none) :
    (newSources ctx fuel st sources).awaited = [] ∧
    (∀ e ∈ (newSources ctx fuel st sources).unawaited,
      isSyncBreakpointEv e = true) ∧
    (∀ e ∈ (newSources ctx fuel st sources).allEv,
      isUpdateSourceEv e = false) := by
  cases fuel with
  | zero =>
    exact ⟨rfl, by intro e he; simp [newSources] at he,
      by intro e he; simp [newSources, Out.allEv] at he⟩
  | succ f =>
    rw [newSources_succ]
    simp only [newSourcesBody]
    split
    · exact ⟨rfl, by intro e he; simp at he, by intro e he; simp [Out.allEv] at he⟩
    · have hmaps : ∀ s ∈ filteredSources st sources,
          ∃ r, getSource (addSourcesReducer st (filteredSources st sources)) s.id = some r ∧
            r.sourceMapURL = none := by
        intro s hs
        obtain ⟨r, hrmem, hget⟩ := getSource_addSources_payload st
          (filteredSources st sources) s.id ⟨s, hs, rfl⟩
        exact ⟨r, hget, h r (filteredSources_mem st sources r hrmem).1⟩
      have hcsh := intentChecks_shape ctx
        (addSourcesReducer st (filteredSources st sources)) (filteredSources st sources)
      rw [hcsh.1]
      have hlm := loadSourceMaps_noMap ctx (newSources ctx f)
        (addSourcesReducer st (filteredSources st sources)) (filteredSources st sources)
        (fun st2 srcs hn => newSources_allNone ctx f st2 srcs hn) hmaps
      rw [hlm]
      refine ⟨rfl, ?_, ?_⟩
      · intro e he
        simp only [List.append_nil] at he
        exact hcsh.2.1 e he
      · intro e he
        simp only [Out.allEv] at he
        simp at he
        rcases he with he | he | he
        · subst he; rfl
        · exact (hcsh.2.2 e (List.mem_append.mpr (Or.inl he))).2
        · exact (hcsh.2.2 e (List.mem_append.mpr (Or.inr he))).2

/-! ## Only breakpoint synchronizations escape the awaited completion -/

lemma loadSourceMap_unawaited (ctx : Ctx) (f : Nat) (st : State)
    (sourceId : String) :
    ∀ e ∈ (loadSourceMap ctx (newSources ctx f) st sourceId).unawaited,
      isSyncBreakpointEv e = true := by
  unfold loadSourceMap
  cases getSource st sourceId with
  | none => intro e he; simp at he
  | some s =>
    simp only
    split
    · intro e he; simp at he
    · cases hu : ctx.getOriginalURLs s with
      | error err => intro e he; simp at he
      | ok u =>
        cases u with
        | none => intro e he; simp at he
        | some urls =>
          intro e he
          simp only [List.mem_append] at he
          have hnomap := newSources_noMap ctx f st
            (((urls.map (fun url => createOriginalSource url s ctx))).map some)
            (by
              intro x hx
              rcases List.mem_map.mp hx with ⟨y, hy, hxy⟩
              cases hxy
              rcases List.mem_map.mp hy with ⟨u2, _, hyu⟩
              rw [← hyu]
              rfl)
          rcases he with he | he
          · rw [hnomap.1] at he
            simp at he
          · exact hnomap.2.1 e he

def AllOut.allEv (a : AllOut) : Trace := a.sync ++ a.awaited ++ a.unawaited

lemma loadSourceMapAll_unawaited (ctx : Ctx) (f : Nat) (st : State)
    (ss : List Source) :
    ∀ e ∈ (loadSourceMapAll ctx (newSources ctx f) st ss).unawaited,
      isSyncBreakpointEv e = true := by
  induction ss generalizing st with
  | nil => intro e he; simp [loadSourceMapAll] at he
  | cons s rest ih =>
    intro e he
    simp only [loadSourceMapAll, List.mem_append] at he
    rcases he with he | he
    · exact loadSourceMap_unawaited ctx f st s.id e he
    · exact ih _ e he

lemma loadSourceMaps_unawaited (ctx : Ctx) (f : Nat) (st : State)
    (ss : List Source) :
    ∀ e ∈ (loadSourceMaps ctx (newSources ctx f) st ss).unawaited,
      isSyncBreakpointEv e = true := by
  simp only [loadSourceMaps]
  split
  · exact loadSourceMapAll_unawaited ctx f st ss
  · next hna =>
    intro e he
    simp only [List.mem_append] at he
    rcases he with he | he
    · exact loadSourceMapAll_unawaited ctx f st ss e he
    · -- the recursive feed is on an all-absent list, hence a no-op
      have hvals := loadSourceMapAll_vals_weak ctx (newSources ctx f) st ss
      have hna' : ((loadSourceMapAll ctx (newSources ctx f) st ss).vals.any
          (fun v => match v with | .error _ => true | .ok _ => false)) = false := by
        cases hval : ((loadSourceMapAll ctx (newSources ctx f) st ss).vals.any
            (fun v => match v with | .error _ => true | .ok _ => false)) with
        | false => rfl
        | true => exact absurd hval hna
      rw [List.any_eq_false] at hna'
      have hnone : ∀ x ∈ flattenJS
          ((loadSourceMapAll ctx (newSources ctx f) st ss).vals.filterMap
            (fun v => match v with | .ok x => some x | .error _ => none)),
          x = none := by
        refine flattenJS_allNone _ ?_
        intro v hv
        rcases List.mem_filterMap.mp hv with ⟨w, hw, hwv⟩
        rcases hvals w hw with hok | herr
        · rw [hok] at hwv
          simpa using hwv.symm
        · exact absurd (by rw [herr]) (hna' w hw)
      rw [newSources_allNone ctx f _ _ hnone] at he
      simp at he

lemma newSources_unawaited_syncBp (ctx : Ctx) (fuel : Nat) (st : State)
    (sources : List (Option Source)) :
    ∀ e ∈ (newSources ctx fuel st sources).unawaited,
      isSyncBreakpointEv e = true := by
  cases fuel with
  | zero => intro e he; simp [newSources] at he
  | succ f =>
    rw [newSources_succ]
    simp only [newSourcesBody]
    split
    · intro e he; simp at he
    · intro e he
      simp only [List.mem_append] at he
      have hcsh := intentChecks_shape ctx
        (addSourcesReducer st (filteredSources st sources)) (filteredSources st sources)
      rcases he with he | he
      · exact hcsh.2.1 e he
      · exact loadSourceMaps_unawaited ctx f _ _ e he

/-! ## Every `ADD_SOURCES` payload avoids ids already in the registry -/

/-- Every `addSources` event in the trace carries a payload whose ids
all avoid the id list `X`. -/
def AvoidAdd (X : List String) (tr : Trace) : Prop :=
  ∀ p, Ev.addSources p ∈ tr → ∀ s ∈ p, s.id ∉ X

lemma avoidAdd_of_no_add {X : List String} {tr : Trace}
    (h : ∀ e ∈ tr, isAddSourcesEv e = false) : AvoidAdd X tr := by
  intro p hp
  have := h _ hp
  simp [isAddSourcesEv] at this

lemma loadSourceMap_avoid (ctx : Ctx)
    (recurse : State → List (Option Source) → Out Unit)
    (st : State) (sourceId : String) (X : List String)
    (hrec : ∀ st2 srcs, (∀ i ∈ X, Present st2 i) →
      AvoidAdd X ((recurse st2 srcs).allEv))
    (hX : ∀ i ∈ X, Present st i) :
    AvoidAdd X ((loadSourceMap ctx recurse st sourceId).allEv) := by
  unfold loadSourceMap
  cases getSource st sourceId with
  | none => exact avoidAdd_of_no_add (by intro e he; simp [Out.allEv] at he)
  | some s =>
    simp only
    split
    · exact avoidAdd_of_no_add (by intro e he; simp [Out.allEv] at he)
    · cases ctx.getOriginalURLs s with
      | error err =>
        refine avoidAdd_of_no_add ?_
        intro e he
        simp [Out.allEv] at he
        rcases he with he | he | he <;> (subst he; rfl)
      | ok u =>
        cases u with
        | none =>
          refine avoidAdd_of_no_add ?_
          intro e he
          simp [Out.allEv] at he
          rcases he with he | he <;> (subst he; rfl)
        | some urls =>
          intro p hp s2 hs2
          have hr := hrec st
            ((urls.map (fun url => createOriginalSource url s ctx)).map some) hX
          set r := recurse st
            ((urls.map (fun url => createOriginalSource url s ctx)).map some) with hrdef
          have hne : ¬(Ev.addSources p = Ev.getOriginalURLsCall s.id) := by simp
          have hp' : Ev.addSources p ∈ r.sync ∨ Ev.addSources p ∈ r.awaited ∨
              Ev.addSources p ∈ r.unawaited := by
            simp only [Out.allEv, List.mem_append, List.mem_cons,
              List.not_mem_nil, or_false] at hp
            tauto
          refine hr p ?_ s2 hs2
          simp only [Out.allEv, List.mem_append]
          tauto

lemma loadSourceMapAll_avoid (ctx : Ctx)
    (recurse : State → List (Option Source) → Out Unit)
    (st : State) (ss : List Source) (X : List String)
    (hrec : ∀ st2 srcs, (∀ i ∈ X, Present st2 i) →
      AvoidAdd X ((recurse st2 srcs).allEv))
    (hrecmono : ∀ st2 srcs i, Present st2 i → Present ((recurse st2 srcs).state) i)
    (hX : ∀ i ∈ X, Present st i) :
    AvoidAdd X ((loadSourceMapAll ctx recurse st ss).allEv) := by
  induction ss generalizing st with
  | nil =>
    exact avoidAdd_of_no_add
      (by intro e he; simp [loadSourceMapAll, AllOut.allEv] at he)
  | cons s rest ih =>
    intro p hp s2 hs2
    have hone := loadSourceMap_avoid ctx recurse st s.id X hrec hX
    have hrest := ih ((loadSourceMap ctx recurse st s.id).state)
      (fun i hi => loadSourceMap_mono ctx recurse st s.id i
        (fun st2 srcs => hrecmono st2 srcs i) (hX i hi))
    have hp' : Ev.addSources p ∈ (loadSourceMap ctx recurse st s.id).allEv ∨
        Ev.addSources p ∈
          (loadSourceMapAll ctx recurse
            ((loadSourceMap ctx recurse st s.id).state) rest).allEv := by
      simp only [loadSourceMapAll, AllOut.allEv, Out.allEv, List.mem_append] at hp ⊢
      tauto
    rcases hp' with hp' | hp'
    · exact hone p hp' s2 hs2
    · exact hrest p hp' s2 hs2

lemma loadSourceMaps_avoid (ctx : Ctx)
    (recurse : State → List (Option Source) → Out Unit)
    (st : State) (ss : List Source) (X : List String)
    (hrec : ∀ st2 srcs, (∀ i ∈ X, Present st2 i) →
      AvoidAdd X ((recurse st2 srcs).allEv))
    (hrecmono : ∀ st2 srcs i, Present st2 i → Present ((recurse st2 srcs).state) i)
    (hX : ∀ i ∈ X, Present st i) :
    AvoidAdd X ((loadSourceMaps ctx recurse st ss).allEv) := by
  have hall := loadSourceMapAll_avoid ctx recurse st ss X hrec hrecmono hX
  have hXa : ∀ i ∈ X, Present ((loadSourceMapAll ctx recurse st ss).state) i :=
    fun i hi => loadSourceMapAll_mono ctx recurse st ss i
      (fun st2 srcs => hrecmono st2 srcs i) (hX i hi)
  simp only [loadSourceMaps]
  split
  · intro p hp s2 hs2
    refine hall p ?_ s2 hs2
    simp only [AllOut.allEv, Out.allEv, List.mem_append] at hp ⊢
    tauto
  · intro p hp s2 hs2
    have hfeed := hrec ((loadSourceMapAll ctx recurse st ss).state)
      (flattenJS ((loadSourceMapAll ctx recurse st ss).vals.filterMap
        (fun v => match v with | .ok x => some x | .error _ => none))) hXa
    have hp' : Ev.addSources p ∈ (loadSourceMapAll ctx recurse st ss).allEv ∨
        Ev.addSources p ∈ (recurse ((loadSourceMapAll ctx recurse st ss).state)
          (flattenJS ((loadSourceMapAll ctx recurse st ss).vals.filterMap
            (fun v => match v with | .ok x => some x | .error _ => none)))).allEv := by
      simp only [AllOut.allEv, Out.allEv, List.mem_append] at hp ⊢
      tauto
    rcases hp' with hp' | hp'
    · exact hall p hp' s2 hs2
    · exact hfeed p hp' s2 hs2

lemma newSources_avoid (ctx : Ctx) :
    ∀ fuel st sources (X : List String), (∀ i ∈ X, Present st i) →
      AvoidAdd X ((newSources ctx fuel st sources).allEv) := by
  intro fuel
  induction fuel with
  | zero =>
    intro st sources X hX
    exact avoidAdd_of_no_add (by intro e he; simp [newSources, Out.allEv] at he)
  | succ f ih =>
    intro st sources X hX
    rw [newSources_succ]
    simp only [newSourcesBody]
    split
    · exact avoidAdd_of_no_add (by intro e he; simp [Out.allEv] at he)
    · have hcsh := intentChecks_shape ctx
        (addSourcesReducer st (filteredSources st sources)) (filteredSources st sources)
      have hX1 : ∀ i ∈ X, Present (addSourcesReducer st (filteredSources st sources)) i :=
        fun i hi => present_addSources st _ i (hX i hi)
      have hmaps := loadSourceMaps_avoid ctx (newSources ctx f)
        (intentChecks ctx (addSourcesReducer st (filteredSources st sources))
          (filteredSources st sources)).1 (filteredSources st sources) X
        (fun st2 srcs h2 => ih st2 srcs X h2)
        (fun st2 srcs i => newSources_mono ctx f st2 srcs i)
        (by rw [hcsh.1]; exact hX1)
      intro p hp s2 hs2
      set c21 := (intentChecks ctx (addSourcesReducer st (filteredSources st sources))
        (filteredSources st sources)).2.1 with hc21
      set c22 := (intentChecks ctx (addSourcesReducer st (filteredSources st sources))
        (filteredSources st sources)).2.2 with hc22
      set r := loadSourceMaps ctx (newSources ctx f)
        (intentChecks ctx (addSourcesReducer st (filteredSources st sources))
          (filteredSources st sources)).1 (filteredSources st sources) with hrdef
      have hp' : Ev.addSources p = Ev.addSources (filteredSources st sources) ∨
          Ev.addSources p ∈ c21 ∨ Ev.addSources p ∈ c22 ∨
          Ev.addSources p ∈ r.allEv := by
        simp only [Out.allEv, List.mem_append, List.mem_cons] at hp ⊢
        tauto
      rcases hp' with hp' | hp' | hp' | hp'
      · -- the batch event itself: its payload survived the snapshot filter
        have hpe : p = filteredSources st sources := by
          injection hp'
        subst hpe
        have hfresh := (filteredSources_mem st sources s2 hs2).2
        intro hmem
        have hpr := hX s2.id hmem
        unfold Present at hpr
        rw [hfresh] at hpr
        simp at hpr
      · have := (hcsh.2.2 (Ev.addSources p) (List.mem_append.mpr (Or.inl hp'))).1
        simp [isAddSourcesEv] at this
      · have := (hcsh.2.2 (Ev.addSources p) (List.mem_append.mpr (Or.inr hp'))).1
        simp [isAddSourcesEv] at this
      · exact hmaps p hp' s2 hs2

lemma flattenJS_replicate_none (n : Nat) :
    flattenJS (List.replicate n none) = List.replicate n none := by
  induction n with
  | zero => rfl
  | succ k ih => simp only [List.replicate_succ, flattenJS, List.flatMap_cons]
                 simpa [flattenJS] using ih

lemma loadSourceMapAll_vals_length (ctx : Ctx)
    (recurse : State → List (Option Source) → Out Unit)
    (st : State) (ss : List Source) :
    (loadSourceMapAll ctx recurse st ss).vals.length = ss.length := by
  induction ss generalizing st with
  | nil => rfl
  | cons s rest ih => simp [loadSourceMapAll, ih]

lemma loadSourceMapAll_vals_replicate (ctx : Ctx)
    (recurse : State → List (Option Source) → Out Unit)
    (st : State) (ss : List Source)
    (hrec : ∀ st2 srcs i, Present st2 i → Present ((recurse st2 srcs).state) i)
    (h : ∀ s ∈ ss, Present st s.id) :
    (loadSourceMapAll ctx recurse st ss).vals =
      List.replicate ss.length (.ok none) := by
  rw [← loadSourceMapAll_vals_length ctx recurse st ss]
  exact List.eq_replicate_of_mem (loadSourceMapAll_vals_ok ctx recurse st ss hrec h)

/-! ## Concrete fixtures used by the witness theorems -/

def wCtx : Ctx :=
  ⟨fun _ => true, fun g u => g ++ "/" ++ u, fun _ => .ok none,
    fun u => u, fun _ => false⟩

def wCtxErr : Ctx :=
  ⟨fun _ => true, fun g u => g ++ "/" ++ u, fun _ => .error (),
    fun u => u, fun _ => false⟩

def wCtxPretty : Ctx :=
  ⟨fun _ => false, fun g u => g ++ "/" ++ u, fun _ => .ok none,
    fun u => if u == "pretty://foo.js" then "foo.js" else u,
    fun u => u == "pretty://foo.js"⟩

def wRecurse : State → List (Option Source) → Out Unit :=
  fun st _ => ⟨st, [], [], [], .ok ()⟩

def wSourceA : Source :=
  ⟨"a", some "file:///a.js", false, false, false, "unloaded", none⟩

def wSourceG : Source :=
  ⟨"g", some "file:///g.js", false, false, false, "unloaded",
    some "file:///g.js.map"⟩

def wSourceFoo : Source :=
  ⟨"f", some "foo.js", false, false, false, "unloaded", none⟩

def wPlPretty : PendingLocation := ⟨some "pretty://foo.js", 3, none⟩

def wPlPlain : PendingLocation := ⟨some "foo.js", 7, some 2⟩

def wStA : State := ⟨[wSourceA], none, fun _ => []⟩

def wStG : State := ⟨[wSourceG], none, fun _ => []⟩

def wStSelPretty : State := ⟨[wSourceFoo], some wPlPretty, fun _ => []⟩

def wStSelPlain : State := ⟨[wSourceFoo], some wPlPlain, fun _ => []⟩

def wStBp : State :=
  ⟨[wSourceFoo], none,
    fun u => if u == some "foo.js" then [⟨1⟩, ⟨2⟩] else []⟩

/-! ## The claims -/

/-- C6: for every source whose id is not a generated id or that declares
no `sourceMapURL`, `loadSourceMap` yields an empty result (the thunk
resolves to no value), with no resolver call and no update effect
dispatched: its state is unchanged and all three traces are empty. -/
theorem loadSourceMap_short_circuit_spec (ctx : Ctx)
    (recurse : State → List (Option Source) → Out Unit)
    (st : State) (sourceId : String) (s : Source)
    (hs : getSource st sourceId = some s)
    (h : ctx.isGeneratedId s.id = false ∨ truthy s.sourceMapURL = false) :
    loadSourceMap ctx recurse st sourceId = ⟨st, [], [], [], .ok none⟩ :=
  loadSourceMap_skip ctx recurse st sourceId s hs h

/-- Witness for C6 at a concrete registered source without a map url. -/
theorem loadSourceMap_short_circuit_spec_w :
    loadSourceMap wCtx wRecurse wStA "a" = ⟨wStA, [], [], [], .ok none⟩ :=
  loadSourceMap_short_circuit_spec wCtx wRecurse wStA "a" wSourceA rfl
    (Or.inr rfl)

/-- C4: for every generated source with a truthy `sourceMapURL` whose
resolver call throws, the error is logged (`consoleError`), exactly one
`UPDATE_SOURCE` effect is dispatched carrying the full source record
with `sourceMapURL` cleared to the empty string, zero original sources
are registered (no `addSources` event occurs: the traces are exactly
the resolver call, the log and the update), and the failure is never
propagated: the thunk resolves (`.ok`), and every `newSources` /
`newSource` call resolves as well. -/
theorem loadSourceMap_resolver_error_spec (ctx : Ctx)
    (recurse : State → List (Option Source) → Out Unit)
    (st : State) (sourceId : String) (s : Source)
    (hs : getSource st sourceId = some s)
    (hgen : ctx.isGeneratedId s.id = true)
    (hmap : truthy s.sourceMapURL = true)
    (herr : ctx.getOriginalURLs s = .error ()) :
    loadSourceMap ctx recurse st sourceId =
      ⟨updateSourceReducer st { s with sourceMapURL := some "" },
        [.getOriginalURLsCall s.id],
        [.consoleError, .updateSource { s with sourceMapURL := some "" }],
        [], .ok none⟩ ∧
    (∀ fuel st2 srcs, (newSources ctx fuel st2 srcs).val = .ok ()) := by
  constructor
  · unfold loadSourceMap
    rw [hs]
    simp [hgen, hmap, herr]
  · exact fun fuel st2 srcs => newSources_total ctx fuel st2 srcs

/-- Witness for C4 at a concrete generated source and a throwing
resolver. -/
theorem loadSourceMap_resolver_error_spec_w :
    loadSourceMap wCtxErr wRecurse wStG "g" =
      ⟨updateSourceReducer wStG { wSourceG with sourceMapURL := some "" },
        [.getOriginalURLsCall "g"],
        [.consoleError, .updateSource { wSourceG with sourceMapURL := some "" }],
        [], .ok none⟩ ∧
    (newSources wCtxErr 2 wStG [some wSourceG]).val = .ok () := by
  have h := loadSourceMap_resolver_error_spec wCtxErr wRecurse wStG "g"
    wSourceG rfl rfl rfl rfl
  exact ⟨h.1, h.2 2 wStG [some wSourceG]⟩

/-- C7: for every newly added source, selection-intent resolution does
nothing when there is no pending selection intent, the intent's url is
not truthy, or the source's url is not truthy; when the intent's raw
(decoration-stripped) url exactly equals the source's url,
pretty-print toggling is triggered if the intent's original url was a
pretty url, and otherwise a selection request is issued carrying the
intent's location fields plus this source's id. -/
theorem checkSelectedSource_spec (ctx : Ctx) (st : State) (sourceId : String)
    (s : Source) (hs : getSource st sourceId = some s) :
    (getPendingSelectedLocation st = none →
      checkSelectedSource ctx st sourceId = ⟨st, [], [], [], .ok ()⟩) ∧
    (∀ pl, getPendingSelectedLocation st = some pl → truthy pl.url = false →
      checkSelectedSource ctx st sourceId = ⟨st, [], [], [], .ok ()⟩) ∧
    (∀ pl, getPendingSelectedLocation st = some pl → truthy s.url = false →
      checkSelectedSource ctx st sourceId = ⟨st, [], [], [], .ok ()⟩) ∧
    (∀ pl pu su, getPendingSelectedLocation st = some pl →
      pl.url = some pu → s.url = some su →
      truthy pl.url = true → truthy s.url = true →
      ctx.getRawSourceURL pu = su →
      (ctx.isPrettyURL pu = true →
        checkSelectedSource ctx st sourceId =
          ⟨st, [.togglePrettyPrint s.id], [], [], .ok ()⟩) ∧
      (ctx.isPrettyURL pu = false →
        checkSelectedSource ctx st sourceId =
          ⟨st, [.selectLocation pl s.id], [], [], .ok ()⟩)) := by
  refine ⟨?_, ?_, ?_, ?_⟩
  · intro hn
    unfold checkSelectedSource
    rw [hs, hn]
  · intro pl hp hfu
    unfold checkSelectedSource
    rw [hs, hp]
    simp [hfu]
  · intro pl hp hfs
    unfold checkSelectedSource
    rw [hs, hp]
    simp [hfs]
  · intro pl pu su hp hpu hsu htu hts hraw
    rw [hpu] at htu
    rw [hsu] at hts
    constructor
    · intro hpretty
      unfold checkSelectedSource
      rw [hs, hp]
      simp [hpu, hsu, htu, hts, hraw, hpretty]
    · intro hplain
      unfold checkSelectedSource
      rw [hs, hp]
      simp [hpu, hsu, htu, hts, hraw, hplain]

/-- Witness for C7: the no-intent no-op, the pretty-url toggle and the
plain selection, each at a concrete input. -/
theorem checkSelectedSource_spec_w :
    checkSelectedSource wCtx wStA "a" = ⟨wStA, [], [], [], .ok ()⟩ ∧
    checkSelectedSource wCtxPretty wStSelPretty "f" =
      ⟨wStSelPretty, [.togglePrettyPrint "f"], [], [], .ok ()⟩ ∧
    checkSelectedSource wCtx wStSelPlain "f" =
      ⟨wStSelPlain, [.selectLocation wPlPlain "f"], [], [], .ok ()⟩ := by
  refine ⟨?_, ?_, ?_⟩
  · exact (checkSelectedSource_spec wCtx wStA "a" wSourceA rfl).1 rfl
  · exact ((checkSelectedSource_spec wCtxPretty wStSelPretty "f" wSourceFoo
      rfl).2.2.2 wPlPretty "pretty://foo.js" "foo.js" rfl rfl rfl rfl rfl
      rfl).1 rfl
  · exact ((checkSelectedSource_spec wCtx wStSelPlain "f" wSourceFoo
      rfl).2.2.2 wPlPlain "foo.js" "foo.js" rfl rfl rfl rfl rfl rfl).2 rfl

/-- C8: for every newly added source with at least one pending
breakpoint keyed by its url, the text load is issued before any
breakpoint synchronization call (the load sits in the synchronous
prefix, the synchronizations in the awaited completion, each issued
sequentially after the previous one resolves), and the
synchronizations follow the stored iteration order of the pending
breakpoints; with no pending breakpoints nothing is dispatched at
all. -/
theorem checkPendingBreakpoints_spec (ctx : Ctx) (st : State)
    (sourceId : String) (s : Source) (hs : getSource st sourceId = some s) :
    (getPendingBreakpointsForSource st s.url = [] →
      checkPendingBreakpoints ctx st sourceId = ⟨st, [], [], [], .ok ()⟩) ∧
    (getPendingBreakpointsForSource st s.url ≠ [] →
      checkPendingBreakpoints ctx st sourceId =
        ⟨st, [.loadSourceText s],
          (getPendingBreakpointsForSource st s.url).map
            (fun bp => .syncBreakpoint sourceId bp),
          [], .ok ()⟩) := by
  constructor
  · intro hnone
    unfold checkPendingBreakpoints
    rw [hs]
    simp [hnone]
  · intro hsome
    have hlen : ((getPendingBreakpointsForSource st s.url).length == 0) = false := by
      rw [beq_eq_false_iff_ne]
      simpa [List.length_eq_zero] using hsome
    unfold checkPendingBreakpoints
    rw [hs]
    simp [hlen]

/-- Witness for C8: two pending breakpoints synchronized in stored
order after the text load, and the no-breakpoint no-op. -/
theorem checkPendingBreakpoints_spec_w :
    checkPendingBreakpoints wCtx wStBp "f" =
      ⟨wStBp, [.loadSourceText wSourceFoo],
        [.syncBreakpoint "f" ⟨1⟩, .syncBreakpoint "f" ⟨2⟩], [], .ok ()⟩ ∧
    checkPendingBreakpoints wCtx wStA "a" = ⟨wStA, [], [], [], .ok ()⟩ := by
  constructor
  · exact (checkPendingBreakpoints_spec wCtx wStBp "f" wSourceFoo rfl).2
      (by decide)
  · exact (checkPendingBreakpoints_spec wCtx wStA "a" wSourceA rfl).1 rfl

/-- C10: dispatching `newSource s` is observationally equivalent to
dispatching `newSources [s]`: same final state, same three event
traces, same settled value — the singleton-batch registration is
awaited and nothing else happens. -/
theorem newSource_singleton_equiv (ctx : Ctx) (fuel : Nat) (st : State)
    (source : Source) :
    newSource ctx fuel st source = newSources ctx fuel st [some source] := rfl

def wCtxMap : Ctx :=
  ⟨fun i => i == "g", fun g u => g ++ "/" ++ u,
    fun _ => .ok (some ["file:///orig.js"]), fun u => u, fun _ => false⟩

def wStEmpty : State := ⟨[], none, fun _ => []⟩

def wStBpFresh : State :=
  ⟨[], none, fun u => if u == some "foo.js" then [⟨1⟩] else []⟩

/-- Core of the success branch of `loadSourceMap`: the per-url
original records are carried by an `ADD_SOURCES` effect before the
thunk resolves, each with the derived id, and no `UPDATE_SOURCE`
occurs. -/
lemma loadSourceMap_success_core (ctx : Ctx) (fuel : Nat)
    (st : State) (sourceId : String) (s : Source) (urls : List String)
    (hs : getSource st sourceId = some s)
    (hgen : ctx.isGeneratedId s.id = true)
    (hmap : truthy s.sourceMapURL = true)
    (hres : ctx.getOriginalURLs s = .ok (some urls))
    (hne : urls ≠ [])
    (hfresh : ∀ u ∈ urls, getSource st (ctx.generatedToOriginalId s.id u) = none) :
    Ev.addSources (urls.map (fun u => createOriginalSource u s ctx)) ∈
      (loadSourceMap ctx (newSources ctx (fuel + 1)) st sourceId).awaited ∧
    (∀ u ∈ urls,
      (createOriginalSource u s ctx).id = ctx.generatedToOriginalId s.id u ∧
      (createOriginalSource u s ctx).loadedState = "unloaded" ∧
      (createOriginalSource u s ctx).isWasm = false) ∧
    (∀ e ∈ (loadSourceMap ctx (newSources ctx (fuel + 1)) st sourceId).allEv,
      isUpdateSourceEv e = false) := by
  have horigs : ∀ o ∈ urls.map (fun u => createOriginalSource u s ctx),
      getSource st o.id = none := by
    intro o ho
    rcases List.mem_map.mp ho with ⟨u, hu, hou⟩
    subst hou
    exact hfresh u hu
  have hfilter := filteredSources_fresh st
    (urls.map (fun u => createOriginalSource u s ctx)) horigs
  have hnomap := newSources_noMap ctx (fuel + 1) st
    ((urls.map (fun u => createOriginalSource u s ctx)).map some)
    (by
      intro x hx
      rcases List.mem_map.mp hx with ⟨y, hy, hxy⟩
      cases hxy
      rcases List.mem_map.mp hy with ⟨u2, _, hyu⟩
      rw [← hyu]
      rfl)
  have hred : loadSourceMap ctx (newSources ctx (fuel + 1)) st sourceId =
      ⟨(newSources ctx (fuel + 1) st
          ((urls.map (fun u => createOriginalSource u s ctx)).map some)).state,
        [.getOriginalURLsCall s.id],
        (newSources ctx (fuel + 1) st
          ((urls.map (fun u => createOriginalSource u s ctx)).map some)).sync,
        (newSources ctx (fuel + 1) st
          ((urls.map (fun u => createOriginalSource u s ctx)).map some)).awaited ++
        (newSources ctx (fuel + 1) st
          ((urls.map (fun u => createOriginalSource u s ctx)).map some)).unawaited,
        .ok none⟩ := by
    unfold loadSourceMap
    rw [hs]
    simp only
    rw [if_neg (by simp [hgen, hmap]), hres]
  have hne2 : ((urls.map (fun u => createOriginalSource u s ctx)).length == 0) = false := by
    rw [beq_eq_false_iff_ne]
    simp [List.length_eq_zero, hne]
  have hsync : ∃ t, (newSources ctx (fuel + 1) st
      ((urls.map (fun u => createOriginalSource u s ctx)).map some)).sync =
      .addSources (urls.map (fun u => createOriginalSource u s ctx)) :: t := by
    rw [newSources_succ]
    simp only [newSourcesBody, hfilter, hne2]
    exact ⟨_, rfl⟩
  refine ⟨?_, ?_, ?_⟩
  · rw [hred]
    obtain ⟨t, ht⟩ := hsync
    rw [ht]
    exact List.mem_cons_self _ _
  · intro u hu
    exact ⟨rfl, rfl, rfl⟩
  · intro e he
    rw [hred] at he
    simp only [Out.allEv, List.mem_append, List.mem_singleton, List.mem_cons] at he
    have hsplit : e = Ev.getOriginalURLsCall s.id ∨
        e ∈ (newSources ctx (fuel + 1) st
          ((urls.map (fun u => createOriginalSource u s ctx)).map some)).allEv := by
      simp only [Out.allEv, List.mem_append]
      tauto
    rcases hsplit with he2 | he2
    · subst he2; rfl
    · exact hnomap.2.2 e he2

/-- C5: for every generated source whose resolver returns a non-empty
list of original urls (all of whose derived ids are fresh), exactly one
original-source record per url — in url order — is carried by the
`ADD_SOURCES` effect dispatched before the thunk's promise resolves;
each record's id is derived from the generated id and the url, its
`loadedState` is `"unloaded"` and `isWasm` is false; and no
`UPDATE_SOURCE` effect occurs anywhere in this branch. -/
theorem loadSourceMap_resolver_success_spec (ctx : Ctx) (fuel : Nat)
    (st : State) (sourceId : String) (s : Source) (urls : List String)
    (hs : getSource st sourceId = some s)
    (hgen : ctx.isGeneratedId s.id = true)
    (hmap : truthy s.sourceMapURL = true)
    (hres : ctx.getOriginalURLs s = .ok (some urls))
    (hne : urls ≠ [])
    (hfresh : ∀ u ∈ urls, getSource st (ctx.generatedToOriginalId s.id u) = none) :
    Ev.addSources (urls.map (fun u => createOriginalSource u s ctx)) ∈
      (loadSourceMap ctx (newSources ctx (fuel + 1)) st sourceId).awaited ∧
    (∀ u ∈ urls,
      (createOriginalSource u s ctx).id = ctx.generatedToOriginalId s.id u ∧
      (createOriginalSource u s ctx).loadedState = "unloaded" ∧
      (createOriginalSource u s ctx).isWasm = false) ∧
    (∀ e ∈ (loadSourceMap ctx (newSources ctx (fuel + 1)) st sourceId).allEv,
      isUpdateSourceEv e = false) :=
  loadSourceMap_success_core ctx fuel st sourceId s urls hs hgen hmap hres
    hne hfresh

/-- Witness for C5: one original url, its record registered before the
resolve, with the derived id. -/
theorem loadSourceMap_resolver_success_spec_w :
    Ev.addSources [createOriginalSource "file:///orig.js" wSourceG wCtxMap] ∈
      (loadSourceMap wCtxMap (newSources wCtxMap 2) wStG "g").awaited ∧
    (createOriginalSource "file:///orig.js" wSourceG wCtxMap).id =
      "g/file:///orig.js" := by
  have h := loadSourceMap_resolver_success_spec wCtxMap 1 wStG "g" wSourceG
    ["file:///orig.js"] rfl rfl rfl rfl (by decide) (by decide)
  exact ⟨h.1, rfl⟩

/-- C9: `loadSourceMap` resolves with no value in every branch (given
the re-fetch succeeds), so the list `loadSourceMaps` flattens and feeds
into its recursive `newSources` call is all-absent and that call
short-circuits, its own state untouched and dispatching nothing; the
discovered original sources instead reach the registry through the
nested unawaited `newSources` dispatch of the success branch, whose
`ADD_SOURCES` is emitted before `loadSourceMap` resolves with no
value. -/
theorem loadSourceMap_valueless_spec (ctx : Ctx) (fuel : Nat) :
    (∀ recurse st sourceId, (getSource st sourceId).isSome = true →
      (loadSourceMap ctx recurse st sourceId).val = .ok none) ∧
    (∀ st ss, (∀ s ∈ ss, (getSource st s.id).isSome = true) →
      (loadSourceMapAll ctx (newSources ctx fuel) st ss).vals =
        List.replicate ss.length (.ok none) ∧
      flattenJS (((loadSourceMapAll ctx (newSources ctx fuel) st ss).vals).filterMap
          (fun v => match v with | .ok x => some x | .error _ => none)) =
        List.replicate ss.length none ∧
      (∀ st2, newSources ctx fuel st2 (List.replicate ss.length none) =
        ⟨st2, [], [], [], .ok ()⟩)) ∧
    (∀ st sourceId s urls, getSource st sourceId = some s →
      ctx.isGeneratedId s.id = true → truthy s.sourceMapURL = true →
      ctx.getOriginalURLs s = .ok (some urls) → urls ≠ [] →
      (∀ u ∈ urls, getSource st (ctx.generatedToOriginalId s.id u) = none) →
      Ev.addSources (urls.map (fun u => createOriginalSource u s ctx)) ∈
        (loadSourceMap ctx (newSources ctx (fuel + 1)) st sourceId).awaited ∧
      (loadSourceMap ctx (newSources ctx (fuel + 1)) st sourceId).val = .ok none) := by
  refine ⟨?_, ?_, ?_⟩
  · intro recurse st sourceId h
    exact loadSourceMap_ok ctx recurse st sourceId h
  · intro st ss h
    have hvals := loadSourceMapAll_vals_replicate ctx (newSources ctx fuel) st ss
      (fun st2 srcs i => newSources_mono ctx fuel st2 srcs i) h
    refine ⟨hvals, ?_, ?_⟩
    · rw [hvals, extract_vals_replicate, flattenJS_replicate_none]
    · intro st2
      exact newSources_allNone ctx fuel st2 _
        (fun x hx => List.eq_of_mem_replicate hx)
  · intro st sourceId s urls hs hgen hmap hres hne hfresh
    have h5 := loadSourceMap_success_core ctx fuel st sourceId s urls
      hs hgen hmap hres hne hfresh
    refine ⟨h5.1, ?_⟩
    exact loadSourceMap_ok ctx (newSources ctx (fuel + 1)) st sourceId
      (by rw [hs]; rfl)

/-- Witness for C9 at concrete inputs: the value of a short-circuiting
call, the all-absent feed of a singleton batch, and the success-branch
registration. -/
theorem loadSourceMap_valueless_spec_w :
    (loadSourceMap wCtx wRecurse wStA "a").val = .ok none ∧
    (loadSourceMapAll wCtxMap (newSources wCtxMap 2) wStG [wSourceG]).vals =
      [.ok none] ∧
    Ev.addSources [createOriginalSource "file:///orig.js" wSourceG wCtxMap] ∈
      (loadSourceMap wCtxMap (newSources wCtxMap 2) wStG "g").awaited := by
  have h1 := (loadSourceMap_valueless_spec wCtx 1).1 wRecurse wStA "a" (by decide)
  have h2 := (loadSourceMap_valueless_spec wCtxMap 2).2.1 wStG [wSourceG]
    (by decide)
  have h3 := (loadSourceMap_valueless_spec wCtxMap 1).2.2 wStG "g" wSourceG
    ["file:///orig.js"] rfl rfl rfl rfl (by decide) (by decide)
  exact ⟨h1, h2.1, h3.1⟩

/-- C3 (at the granularity of observable effects): the promise returned
by `newSources` is not resolved before all source-map resolution work
of the batch and all recursive registration of discovered original
sources has happened — every event of the execution that is not
sequenced before the resolve (`unawaited`) is a breakpoint
synchronization, i.e. belongs to the fire-and-forget intent
resolution; equivalently every other event, in particular every
resolver call, every `UPDATE_SOURCE` and every recursive
`ADD_SOURCES`, lies in `sync ++ awaited`. -/
theorem newSources_resolution_before_resolve (ctx : Ctx) (fuel : Nat)
    (st : State) (sources : List (Option Source)) :
    ∀ e ∈ (newSources ctx fuel st sources).allEv,
      isSyncBreakpointEv e = false →
      e ∈ (newSources ctx fuel st sources).sync ++
          (newSources ctx fuel st sources).awaited := by
  intro e he hbp
  have hu : e ∉ (newSources ctx fuel st sources).unawaited := by
    intro hin
    have := newSources_unawaited_syncBp ctx fuel st sources e hin
    rw [hbp] at this
    cases this
  simp only [Out.allEv, List.mem_append] at he
  rw [List.mem_append]
  tauto

/-- Witness for C3: the recursively registered original source's
`ADD_SOURCES` effect happens before the outer promise resolves. -/
theorem newSources_resolution_before_resolve_w :
    Ev.addSources [createOriginalSource "file:///orig.js" wSourceG wCtxMap] ∈
      (newSources wCtxMap 3 wStEmpty [some wSourceG]).sync ++
      (newSources wCtxMap 3 wStEmpty [some wSourceG]).awaited :=
  newSources_resolution_before_resolve wCtxMap 3 wStEmpty [some wSourceG]
    (Ev.addSources [createOriginalSource "file:///orig.js" wSourceG wCtxMap])
    (by decide) (by decide)

def cexSt : State := ⟨[], none, fun _ => []⟩

def cexA : Source :=
  ⟨"a", some "file:///a.js", false, false, false, "unloaded", none⟩

def cexB : Source :=
  ⟨"b", some "file:///b.js", false, false, false, "unloaded", none⟩

/-- C2 counterexample: for the batch `[A, B, A]` with A and B novel,
the single `ADD_SOURCES` effect carries `[A, B, A]`, not `[A, B]`: the
registry lookup of the filter reads the snapshot taken before the
batched dispatch, so the second A is not dropped. -/
theorem newSources_intrabatch_dup_cex :
    (newSources wCtx 3 cexSt [some cexA, some cexB, some cexA]).allEv =
      [.addSources [cexA, cexB, cexA]] ∧
    Ev.addSources [cexA, cexB] ∉
      (newSources wCtx 3 cexSt [some cexA, some cexB, some cexA]).allEv := by
  constructor
  · decide
  · decide

/-- C2 amended: registering `[A, B, A]` where A and B are novel
produces exactly one `ADD_SOURCES` effect containing `[A, B, A]` in
batch order — intra-batch duplicates are kept, because every filter
check reads the registry snapshot taken before the batched dispatch,
which does not reflect prior adds of the same pass. -/
theorem newSources_intrabatch_dup_amended (ctx : Ctx) (fuel : Nat)
    (st : State) (A B : Source)
    (hA : getSource st A.id = none) (hB : getSource st B.id = none) :
    filteredSources st [some A, some B, some A] = [A, B, A] ∧
    (newSources ctx (fuel + 1) st [some A, some B, some A]).sync.head? =
      some (.addSources [A, B, A]) := by
  have hf : filteredSources st [some A, some B, some A] = [A, B, A] := by
    simp [filteredSources, hA, hB]
  refine ⟨hf, ?_⟩
  rw [newSources_succ]
  simp only [newSourcesBody, hf]
  rw [if_neg (by simp)]
  rfl

/-- Witness for the amended C2 at concrete novel sources. -/
theorem newSources_intrabatch_dup_amended_w :
    filteredSources cexSt [some cexA, some cexB, some cexA] =
      [cexA, cexB, cexA] ∧
    (newSources wCtx 3 cexSt [some cexA, some cexB, some cexA]).sync.head? =
      some (.addSources [cexA, cexB, cexA]) :=
  newSources_intrabatch_dup_amended wCtx 2 cexSt cexA cexB (by decide) (by decide)

lemma filteredSources_eq (st : State) (sources : List (Option Source)) :
    filteredSources st sources =
      (sources.filterMap id).filter (fun s => (getSource st s.id).isNone) := by
  induction sources with
  | nil => rfl
  | cons c rest ih =>
    cases c with
    | none =>
      simpa [filteredSources, List.filterMap_cons] using ih
    | some s =>
      simp only [filteredSources, List.filterMap_cons, List.filter_cons] at ih ⊢
      cases hg : getSource st s.id with
      | none => simp [hg, ih]
      | some r => simp [hg, ih]

lemma count_cons_of_not_mem {a : Ev} {t : Trace} (h : a ∉ t) :
    (a :: t).count a = 1 := by
  rw [List.count_cons_self, List.count_eq_zero.mpr h]

/-- C1: the survivors of the `newSources` filter are exactly the
non-absent candidates whose id is not yet registered, in batch order;
if the filtered sequence is empty the call returns with no dispatched
effect at all (state unchanged, all traces empty); otherwise the whole
execution dispatches exactly one batched `ADD_SOURCES` effect carrying
the entire filtered sequence in that order, and it is the first
effect. -/
theorem newSources_filter_batch_spec (ctx : Ctx) (fuel : Nat) (st : State)
    (sources : List (Option Source)) :
    filteredSources st sources =
      (sources.filterMap id).filter (fun s => (getSource st s.id).isNone) ∧
    (filteredSources st sources = [] →
      newSources ctx (fuel + 1) st sources = ⟨st, [], [], [], .ok ()⟩) ∧
    (filteredSources st sources ≠ [] →
      (newSources ctx (fuel + 1) st sources).allEv.head? =
        some (.addSources (filteredSources st sources)) ∧
      ((newSources ctx (fuel + 1) st sources).allEv).count
        (.addSources (filteredSources st sources)) = 1) := by
  refine ⟨filteredSources_eq st sources,
    fun h => newSources_empty ctx (fuel + 1) st sources h, ?_⟩
  intro hne
  have hlen : ((filteredSources st sources).length == 0) = false := by
    rw [beq_eq_false_iff_ne]
    simpa [List.length_eq_zero] using hne
  have hcsh := intentChecks_shape ctx
    (addSourcesReducer st (filteredSources st sources)) (filteredSources st sources)
  have hX1 : ∀ i ∈ (filteredSources st sources).map Source.id,
      Present (addSourcesReducer st (filteredSources st sources)) i := by
    intro i hi
    rcases List.mem_map.mp hi with ⟨s, hsmem, hsid⟩
    obtain ⟨r, hrmem, hget⟩ := getSource_addSources_payload st
      (filteredSources st sources) i ⟨s, hsmem, hsid⟩
    unfold Present
    rw [hget]
    rfl
  have hmaps := loadSourceMaps_avoid ctx (newSources ctx fuel)
    (intentChecks ctx (addSourcesReducer st (filteredSources st sources))
      (filteredSources st sources)).1 (filteredSources st sources)
    ((filteredSources st sources).map Source.id)
    (fun st2 srcs h2 => newSources_avoid ctx fuel st2 srcs _ h2)
    (fun st2 srcs i => newSources_mono ctx fuel st2 srcs i)
    (by rw [hcsh.1]; exact hX1)
  have hnotr : Ev.addSources (filteredSources st sources) ∉
      (loadSourceMaps ctx (newSources ctx fuel)
        (intentChecks ctx (addSourcesReducer st (filteredSources st sources))
          (filteredSources st sources)).1 (filteredSources st sources)).allEv := by
    intro hin
    obtain ⟨s0, hs0⟩ := List.exists_mem_of_ne_nil _ hne
    exact hmaps _ hin s0 hs0 (List.mem_map.mpr ⟨s0, hs0, rfl⟩)
  have hnc21 : Ev.addSources (filteredSources st sources) ∉
      (intentChecks ctx (addSourcesReducer st (filteredSources st sources))
        (filteredSources st sources)).2.1 := by
    intro hin
    have := (hcsh.2.2 _ (List.mem_append.mpr (Or.inl hin))).1
    simp [isAddSourcesEv] at this
  have hnc22 : Ev.addSources (filteredSources st sources) ∉
      (intentChecks ctx (addSourcesReducer st (filteredSources st sources))
        (filteredSources st sources)).2.2 := by
    intro hin
    have := (hcsh.2.2 _ (List.mem_append.mpr (Or.inr hin))).1
    simp [isAddSourcesEv] at this
  have hnrs : Ev.addSources (filteredSources st sources) ∉
      (loadSourceMaps ctx (newSources ctx fuel)
        (intentChecks ctx (addSourcesReducer st (filteredSources st sources))
          (filteredSources st sources)).1 (filteredSources st sources)).sync := by
    intro hin
    exact hnotr (by simp only [Out.allEv, List.mem_append]; tauto)
  have hnra : Ev.addSources (filteredSources st sources) ∉
      (loadSourceMaps ctx (newSources ctx fuel)
        (intentChecks ctx (addSourcesReducer st (filteredSources st sources))
          (filteredSources st sources)).1 (filteredSources st sources)).awaited := by
    intro hin
    exact hnotr (by simp only [Out.allEv, List.mem_append]; tauto)
  have hnru : Ev.addSources (filteredSources st sources) ∉
      (loadSourceMaps ctx (newSources ctx fuel)
        (intentChecks ctx (addSourcesReducer st (filteredSources st sources))
          (filteredSources st sources)).1 (filteredSources st sources)).unawaited := by
    intro hin
    exact hnotr (by simp only [Out.allEv, List.mem_append]; tauto)
  have hred : newSources ctx (fuel + 1) st sources =
      ⟨(loadSourceMaps ctx (newSources ctx fuel)
          (intentChecks ctx (addSourcesReducer st (filteredSources st sources))
            (filteredSources st sources)).1 (filteredSources st sources)).state,
        .addSources (filteredSources st sources) ::
          ((intentChecks ctx (addSourcesReducer st (filteredSources st sources))
            (filteredSources st sources)).2.1 ++
          (loadSourceMaps ctx (newSources ctx fuel)
            (intentChecks ctx (addSourcesReducer st (filteredSources st sources))
              (filteredSources st sources)).1 (filteredSources st sources)).sync),
        (loadSourceMaps ctx (newSources ctx fuel)
          (intentChecks ctx (addSourcesReducer st (filteredSources st sources))
            (filteredSources st sources)).1 (filteredSources st sources)).awaited,
        (intentChecks ctx (addSourcesReducer st (filteredSources st sources))
          (filteredSources st sources)).2.2 ++
        (loadSourceMaps ctx (newSources ctx fuel)
          (intentChecks ctx (addSourcesReducer st (filteredSources st sources))
            (filteredSources st sources)).1 (filteredSources st sources)).unawaited,
        (loadSourceMaps ctx (newSources ctx fuel)
          (intentChecks ctx (addSourcesReducer st (filteredSources st sources))
            (filteredSources st sources)).1 (filteredSources st sources)).val⟩ := by
    rw [newSources_succ]
    simp only [newSourcesBody, hlen, Bool.false_eq_true, if_false]
  constructor
  · rw [hred]
    simp [Out.allEv, List.cons_append]
  · rw [hred]
    simp only [Out.allEv, List.cons_append]
    apply count_cons_of_not_mem
    intro hin
    simp only [List.mem_append] at hin
    tauto

/-- Witness for C1: the nonempty branch at a concrete batch with an
already-registered candidate and a null candidate. -/
theorem newSources_filter_batch_spec_w :
    filteredSources wStA [some wSourceA, none, some cexB] = [cexB] ∧
    (newSources wCtx 3 wStA [some wSourceA, none, some cexB]).allEv.head? =
      some (.addSources [cexB]) ∧
    ((newSources wCtx 3 wStA [some wSourceA, none, some cexB]).allEv).count
      (.addSources [cexB]) = 1 ∧
    newSources wCtx 3 wStA [some wSourceA, none] = ⟨wStA, [], [], [], .ok ()⟩ := by
  have h := newSources_filter_batch_spec wCtx 2 wStA [some wSourceA, none, some cexB]
  have h2 := newSources_filter_batch_spec wCtx 2 wStA [some wSourceA, none]
  have hf : filteredSources wStA [some wSourceA, none, some cexB] = [cexB] := by decide
  refine ⟨hf, ?_, ?_, h2.2.1 (by decide)⟩
  · have := (h.2.2 (by decide)).1
    rwa [hf] at this
  · have := (h.2.2 (by decide)).2
    rwa [hf] at this

end DebuggerHtml
